import Mathlib

/-!
Verification development for the Cornucopia repository.

The definitions below are shallow embeddings of the Python source:
- `Cornucopia.CrossSignal` models `src/CrossSignalStrategy.py`
  (`MovingAverageAnalyzer`, `AShareDataFetcher`, `StockScreener` result sorting);
- `Cornucopia.PickStock` models `src/easypicking/strategies/pickstock.py`
  (`QuantStockSelector.multi_factor_selection`).

Python floats are modelled as exact rationals (ℚ), calendar dates and
timestamps as integers (ℤ), pandas frames as Lean lists, and fallible code
as `Option`/`Except` values.
-/

namespace Cornucopia

namespace CrossSignal

/-- Signal-strength labels produced by
`MovingAverageAnalyzer._calculate_signal_strength`. The source returns the
Chinese strings 强 / 中等 / 弱 for strong / moderate / weak. -/
inductive Strength
  | strong
  | moderate
  | weak
deriving DecidableEq, Repr

/-- The Unicode code points of the label string the source stores for each
strength: 强 is U+5F3A, 中等 is U+4E2D U+7B49, 弱 is U+5F31.  Python compares
strings lexicographically by code point, so the sort in
`StockScreener.screen_stocks` orders events by these lists. -/
def Strength.label : Strength → List ℕ
  | .strong => [0x5F3A]
  | .moderate => [0x4E2D, 0x7B49]
  | .weak => [0x5F31]

/-- `MovingAverageAnalyzer._calculate_signal_strength`: relative gap
`(fast - slow) / slow * 100`, classified `> 2` strong, `> 1` moderate,
otherwise weak, with `slow == 0` short-circuited to weak. -/
def calculate_signal_strength (fast_ma slow_ma : ℚ) : Strength :=
  if slow_ma = 0 then .weak
  else
    let diff_pct := (fast_ma - slow_ma) / slow_ma * 100
    if diff_pct > 2 then .strong
    else if diff_pct > 1 then .moderate
    else .weak

/-- Round-half-to-even on rationals, modelling Python's `round` on the exact
value (the source applies `round(x, 2)` to float values; floats are modelled
as exact rationals here). -/
def roundHalfEven (x : ℚ) : ℤ :=
  let f := ⌊x⌋
  let r := x - f
  if r < 1/2 then f
  else if 1/2 < r then f + 1
  else if f % 2 = 0 then f else f + 1

/-- `round(x, 2)` of the source. -/
def round2 (x : ℚ) : ℚ := (roundHalfEven (x * 100) : ℚ) / 100

/-- The bars a pandas rolling window of width `window` sees at row `i`:
the last `window` rows up to and including `i`. -/
def windowSlice (window : ℕ) (closes : List ℚ) (i : ℕ) : List ℚ :=
  (closes.take (i + 1)).drop (i + 1 - window)

/-- The mean over the (possibly partial) window at row `i`. -/
def windowMean (window : ℕ) (closes : List ℚ) (i : ℕ) : ℚ :=
  (windowSlice window closes i).sum / ((windowSlice window closes i).length : ℚ)

/-- `close.rolling(window=window, min_periods=min_periods).mean()` of pandas:
row `i` holds the mean of the available bars in the window, or is missing
(`NaN`, modelled as `none`) when fewer than `min_periods` bars are available. -/
def rollingMean (window min_periods : ℕ) (closes : List ℚ) : List (Option ℚ) :=
  (List.range closes.length).map (fun i =>
    if min_periods ≤ (windowSlice window closes i).length
    then some (windowMean window closes i) else none)

/-- A moving-average-annotated frame: the `df_ma` that
`MovingAverageAnalyzer.calculate_moving_averages` returns.  `dates` is the
frame index, `closes` the `close` column, and `cols p` the `MA{p}` column
(cells are `Option` to model pandas `NaN`). -/
structure DfMa where
  dates : List ℤ
  closes : List ℚ
  cols : ℕ → List (Option ℚ)

/-- `MovingAverageAnalyzer.calculate_moving_averages`: one `MA{p}` column per
configured period, computed with `rolling(window=p, min_periods=1).mean()`.
Columns for unconfigured periods do not exist in the frame (modelled as the
empty column; they are never accessed by `find_crossovers`). -/
def calculate_moving_averages (ma_periods : List ℕ) (dates : List ℤ)
    (closes : List ℚ) : DfMa :=
  { dates := dates
    closes := closes
    cols := fun p => if p ∈ ma_periods then rollingMean p 1 closes else [] }

/-- One crossover record of `MovingAverageAnalyzer.find_crossovers`. -/
structure Event where
  date : ℤ
  fast_ma : ℕ
  slow_ma : ℕ
  fast_ma_value : ℚ
  slow_ma_value : ℚ
  close_price : ℚ
  signal_strength : Strength
deriving DecidableEq, Repr

/-- `max(self.ma_periods)` (Python `max` of a list of naturals). -/
def maxPeriod (ps : List ℕ) : ℕ := ps.foldr max 0

/-- Cell access `df_ma.iloc[j][MA{p}]` at absolute row `j`. -/
def maAt (df : DfMa) (p : ℕ) (j : ℕ) : Option ℚ := (df.cols p).getD j none

/-- The body of the inner loop of `find_crossovers` at absolute row `j`
(Python index `idx = j - len(df_ma)`): skip if the fast or slow value is
missing at `j`, skip if `j - 1` underflows or has a missing value, and emit
an event when `fast[j] > slow[j]` and `fast[j-1] <= slow[j-1]`. -/
def crossCheck (df : DfMa) (fastP slowP : ℕ) (j : ℕ) : Option Event :=
  match maAt df fastP j, maAt df slowP j with
  | some fc, some sc =>
    if j = 0 then none
    else
      match maAt df fastP (j - 1), maAt df slowP (j - 1) with
      | some fp, some sp =>
        if fc > sc ∧ fp ≤ sp then
          some { date := df.dates.getD j 0
                 fast_ma := fastP
                 slow_ma := slowP
                 fast_ma_value := round2 fc
                 slow_ma_value := round2 sc
                 close_price := round2 (df.closes.getD j 0)
                 signal_strength := calculate_signal_strength fc sc }
        else none
      | _, _ => none
  | _, _ => none

/-- `MovingAverageAnalyzer.find_crossovers`: returns `[]` when the frame is
shorter than `max(ma_periods) + lookback_days`; otherwise scans the last
`min(lookback_days, len - 1)` rows (most recent first), for each slow period
`ma_periods[1:]`, with `ma_periods[0]` as the fast average. -/
def find_crossovers (ma_periods : List ℕ) (df : DfMa) (lookback_days : ℕ) :
    List Event :=
  let n := df.dates.length
  if n < maxPeriod ma_periods + lookback_days then []
  else
    (List.range (min lookback_days (n - 1))).flatMap (fun i =>
      (ma_periods.drop 1).filterMap (fun slowP =>
        crossCheck df (ma_periods.headD 0) slowP (n - 1 - i)))

/-- Python string comparison `s < t` on the code-point lists of two strings:
compare code points position by position, a strict prefix is smaller. -/
def pyStrLtB : List ℕ → List ℕ → Bool
  | _, [] => false
  | [], _ :: _ => true
  | a :: as, b :: bs =>
    if a < b then true else if b < a then false else pyStrLtB as bs

/-- The event record the source builds at absolute row `j` for slow period
`slowP` on a frame produced by `calculate_moving_averages`. -/
def expectedEvent (ps : List ℕ) (dates : List ℤ) (closes : List ℚ)
    (slowP j : ℕ) : Event :=
  { date := dates.getD j 0
    fast_ma := ps.headD 0
    slow_ma := slowP
    fast_ma_value := round2 (windowMean (ps.headD 0) closes j)
    slow_ma_value := round2 (windowMean slowP closes j)
    close_price := round2 (closes.getD j 0)
    signal_strength := calculate_signal_strength
      (windowMean (ps.headD 0) closes j) (windowMean slowP closes j) }

/-- The order `StockScreener.screen_stocks` sorts by:
`sort_values(['交叉日期', '信号强度'], ascending=[False, False])` — event date
descending, then the strength label string descending in Python's
lexicographic code-point order. `resultBefore a b` holds when `a` may appear
at or before `b` in the sorted output. -/
def resultBefore (a b : Event) : Prop :=
  b.date < a.date ∨
    (a.date = b.date ∧
      pyStrLtB a.signal_strength.label b.signal_strength.label = false)

instance : DecidableRel resultBefore := fun a b =>
  inferInstanceAs (Decidable (b.date < a.date ∨
    (a.date = b.date ∧
      pyStrLtB a.signal_strength.label b.signal_strength.label = false)))


/-- The final sort of `StockScreener.screen_stocks`. -/
def sort_results (evs : List Event) : List Event :=
  List.insertionSort resultBefore evs

/-- The strength order the spec asserts for the tie-break:
strong before moderate before weak. -/
def strengthRank : Strength → ℕ
  | .strong => 2
  | .moderate => 1
  | .weak => 0

end CrossSignal

namespace Fetcher

/-- A per-symbol price frame as `AShareDataFetcher.get_stock_data` handles
it: the rows (the OHLCV payload of one bar is abstracted to one rational)
plus the `symbol` and `name` columns the fetcher annotates before caching. -/
structure StockDF where
  bars : List ℚ
  symbol : Option String := none
  name : Option String := none
deriving DecidableEq, Repr

/-- What one entry of `AShareDataFetcher.data_sources` produces for one
call: a raised exception (swallowed by the fetch loop), `None`, or a
frame. -/
abbrev AdapterResult := Except Unit (Option StockDF)

/-- The fixed source priority order of `AShareDataFetcher.__init__`:
akshare, then yfinance, then eastmoney. -/
def data_sources (akshareRes yfinanceRes eastmoneyRes : AdapterResult) :
    List AdapterResult :=
  [akshareRes, yfinanceRes, eastmoneyRes]

/-- One cached per-symbol series file together with its modification
time. -/
structure CacheEntry where
  series : StockDF
  writtenAt : ℤ
deriving DecidableEq, Repr

/-- The `stocks/` cache directory: at most one entry per symbol. -/
abbrev Cache := List (String × CacheEntry)

/-- Reading the pickle file for a symbol, if present. -/
def lookupCache (c : Cache) (symbol : String) : Option CacheEntry :=
  (c.find? (fun p => p.1 == symbol)).map Prod.snd

/-- `df.to_pickle(cache_file)`: replaces any entry for the symbol. -/
def putCache (c : Cache) (symbol : String) (e : CacheEntry) : Cache :=
  (symbol, e) :: c.filter (fun p => p.1 != symbol)

/-- The 6-hour series cache TTL (`timedelta(hours=6)`), in seconds. -/
def seriesTTL : ℤ := 6 * 60 * 60

/-- `df['symbol'] = symbol; df['name'] = name`. -/
def annotate (df : StockDF) (symbol name : String) : StockDF :=
  { df with symbol := some symbol, name := some name }

/-- Bookkeeping for one skipped source: the loop moves on to the next
source and one more source has been invoked. -/
def skipSource (out : Option StockDF × Cache × ℕ) :
    Option StockDF × Cache × ℕ :=
  (out.1, out.2.1, out.2.2 + 1)

/-- The source loop of `get_stock_data`: try each source in order; a raised
exception, a `None`, or an empty/short frame moves on to the next source;
the first frame that is non-empty with at least 20 bars is annotated with
symbol and name, written to the cache, and returned.  The third component
counts the sources invoked. -/
def trySources (cache : Cache) (now : ℤ) (symbol name : String) :
    List AdapterResult → Option StockDF × Cache × ℕ
  | [] => (none, cache, 0)
  | .error _ :: rest => skipSource (trySources cache now symbol name rest)
  | .ok none :: rest => skipSource (trySources cache now symbol name rest)
  | .ok (some df) :: rest =>
    if df.bars ≠ [] ∧ 20 ≤ df.bars.length then
      (some (annotate df symbol name),
       putCache cache symbol ⟨annotate df symbol name, now⟩, 1)
    else skipSource (trySources cache now symbol name rest)

/-- A cached entry is served only when it is younger than the TTL and holds
a non-empty frame with at least 20 bars; otherwise the entry is ignored. -/
def cacheValid (c : Cache) (symbol : String) (now : ℤ) : Prop :=
  match lookupCache c symbol with
  | some e => now - e.writtenAt < seriesTTL ∧
      e.series.bars ≠ [] ∧ 20 ≤ e.series.bars.length
  | none => False

/-- `AShareDataFetcher.get_stock_data`: serve a valid cached entry without
touching any source, otherwise run the source loop. -/
def get_stock_data (cache : Cache) (now : ℤ) (symbol name : String)
    (akshareRes yfinanceRes eastmoneyRes : AdapterResult) :
    Option StockDF × Cache × ℕ :=
  match lookupCache cache symbol with
  | some e =>
    if now - e.writtenAt < seriesTTL ∧ e.series.bars ≠ [] ∧
        20 ≤ e.series.bars.length then
      (some e.series, cache, 0)
    else
      trySources cache now symbol name
        (data_sources akshareRes yfinanceRes eastmoneyRes)
  | none =>
    trySources cache now symbol name
      (data_sources akshareRes yfinanceRes eastmoneyRes)

/-- A source result that the fetch loop accepts: a frame that is non-empty
with at least 20 bars. -/
def goodRes : AdapterResult → Prop
  | .ok (some df) => df.bars ≠ [] ∧ 20 ≤ df.bars.length
  | .ok none => False
  | .error _ => False

/-- A value held by the `stocks_list` variable of
`AShareDataFetcher.get_all_a_stocks`: either a plain Python list of
(symbol, name) rows or a pandas DataFrame of such rows. -/
inductive StocksListObj
  | pyList (rows : List (String × String))
  | pyDF (rows : List (String × String))
deriving DecidableEq, Repr

/-- The attribute access `stocks_list.empty`: defined on a DataFrame,
raises `AttributeError` on a plain Python list. -/
def emptyAttr : StocksListObj → Except String Bool
  | .pyList _ => .error "AttributeError"
  | .pyDF rows => .ok rows.isEmpty

def rowsOf : StocksListObj → List (String × String)
  | .pyList rows => rows
  | .pyDF rows => rows

/-- `AShareDataFetcher._get_local_stock_list`. -/
def local_stock_list : List (String × String) :=
  [("000001", "平安银行"), ("000002", "万科A"), ("000858", "五粮液"),
   ("000333", "美的集团"), ("000651", "格力电器"), ("600519", "贵州茅台"),
   ("600036", "招商银行"), ("601318", "中国平安"), ("601888", "中国中免"),
   ("300750", "宁德时代"), ("002415", "海康威视"), ("002594", "比亚迪"),
   ("300059", "东方财富"), ("600276", "恒瑞医药"), ("600887", "伊利股份")]

/-- `AShareDataFetcher._create_basic_stock_list`: the fixed embedded
last-resort list. -/
def basic_stock_list : List (String × String) :=
  [("600519", "贵州茅台"), ("600036", "招商银行"), ("601318", "中国平安"),
   ("600276", "恒瑞医药"), ("600887", "伊利股份"), ("601166", "兴业银行"),
   ("600030", "中信证券"), ("600837", "海通证券"), ("601668", "中国建筑"),
   ("000858", "五粮液"), ("000333", "美的集团"), ("000651", "格力电器"),
   ("002415", "海康威视"), ("002594", "比亚迪"), ("300750", "宁德时代"),
   ("300059", "东方财富"), ("300760", "迈瑞医疗"), ("300124", "汇川技术"),
   ("300142", "沃森生物")]

/-- `AShareDataFetcher.get_all_a_stocks` on a cache miss, as written:
`stocks_list` starts as the plain Python list `[]`; a successful non-empty
akshare frame replaces it by a DataFrame; each fallback guard then
evaluates `stocks_list is None or stocks_list.empty`, and the `.empty`
access raises `AttributeError` whenever `stocks_list` is still a plain
list. -/
def get_all_a_stocks_onMiss
    (akshareRes : Except Unit (List (String × String))) :
    Except String (List (String × String)) :=
  let stocks₁ : StocksListObj :=
    match akshareRes with
    | .ok df => if df.isEmpty then .pyList [] else .pyDF df
    | .error _ => .pyList []
  match emptyAttr stocks₁ with
  | .error m => .error m
  | .ok true =>
    let stocks₂ : StocksListObj := .pyList local_stock_list
    match emptyAttr stocks₂ with
    | .error m => .error m
    | .ok true => .ok basic_stock_list
    | .ok false => .ok (rowsOf stocks₂)
  | .ok false => .ok (rowsOf stocks₁)

end Fetcher

namespace PickStock

/-- The factor strategies combined by
`QuantStockSelector.multi_factor_selection`, in the iteration order of the
`strategies` dict: value, growth, momentum, quality. -/
inductive Factor
  | value
  | growth
  | momentum
  | quality
deriving DecidableEq, Repr

def Factor.all : List Factor := [.value, .growth, .momentum, .quality]

/-- One factor strategy's result set: the (symbol, raw score) rows of the
truncated DataFrame the strategy returns. -/
abbrev ResultSet := List (String × ℚ)

/-- pandas `Series.min` over a score column (the source only takes it over
non-empty columns; `0` is an arbitrary value for the empty case). -/
def colMin : List ℚ → ℚ
  | [] => 0
  | x :: xs => xs.foldl min x

/-- pandas `Series.max` over a score column. -/
def colMax : List ℚ → ℚ
  | [] => 0
  | x :: xs => xs.foldl max x

/-- The `1e-10` guard the source adds to the normalization denominator. -/
def normEps : ℚ := 1 / 10000000000

/-- The source's min-max normalization of a raw score within its own
strategy's result set: `(x - min) / (max - min + 1e-10)`. -/
def normalizeScore (rs : ResultSet) (x : ℚ) : ℚ :=
  (x - colMin (rs.map Prod.snd)) /
    (colMax (rs.map Prod.snd) - colMin (rs.map Prod.snd) + normEps)

/-- The normalized score a symbol holds for one factor: the normalization
of its row in that strategy's result set (the last row when the symbol
repeats, mirroring dict overwrite), and `scores.get(name, 0) = 0` when the
symbol is absent from the result set. -/
def factorScore (rs : ResultSet) (symbol : String) : ℚ :=
  match rs.reverse.find? (fun p => p.1 == symbol) with
  | some p => normalizeScore rs p.2
  | none => 0

/-- The four factor result sets `multi_factor_selection` combines. -/
structure Inputs where
  value_df : ResultSet
  growth_df : ResultSet
  momentum_df : ResultSet
  quality_df : ResultSet

def Inputs.rs (d : Inputs) : Factor → ResultSet
  | .value => d.value_df
  | .growth => d.growth_df
  | .momentum => d.momentum_df
  | .quality => d.quality_df

/-- First-occurrence deduplication with an explicit seen-set, mirroring
insertion into the `all_stocks` dict. -/
def dedupAux (seen : List String) : List String → List String
  | [] => []
  | x :: xs =>
    if x ∈ seen then dedupAux seen xs
    else x :: dedupAux (x :: seen) xs

/-- The keys of the `all_stocks` dict: every symbol appearing in at least
one result set, in first-appearance order over the strategies in order. -/
def allSymbols (d : Inputs) : List String :=
  dedupAux [] (Factor.all.flatMap (fun f => (d.rs f).map Prod.fst))

/-- `total_score += score * weights[strategy_name]` summed over the
configured factor weights. -/
def total_score (w : Factor → ℚ) (d : Inputs) (symbol : String) : ℚ :=
  (Factor.all.map (fun f => factorScore (d.rs f) symbol * w f)).sum

/-- Descending order on combined scores
(`sort_values('total_score', ascending=False)`). -/
def scoreGe (a b : String × ℚ) : Prop := b.2 ≤ a.2

instance : DecidableRel scoreGe := fun a b =>
  inferInstanceAs (Decidable (b.2 ≤ a.2))

instance : IsTotal (String × ℚ) scoreGe := ⟨fun a b => le_total b.2 a.2⟩

instance : IsTrans (String × ℚ) scoreGe :=
  ⟨fun _ _ _ hab hbc => le_trans hbc hab⟩

/-- The combination loop of `QuantStockSelector.multi_factor_selection`
given the four already-computed factor result sets: per-symbol normalized
factor scores, weighted sum, descending sort on the combined score,
truncation to the top 30. -/
def combineResults (w : Factor → ℚ) (d : Inputs) :
    List (String × ℚ) :=
  (List.insertionSort scoreGe
    ((allSymbols d).map (fun s => (s, total_score w d s)))).take 30

/-- Ascending order on raw scores (`sort_values('value_score')`). -/
def scoreLe (a b : String × ℚ) : Prop := a.2 ≤ b.2

instance : DecidableRel scoreLe := fun a b =>
  inferInstanceAs (Decidable (a.2 ≤ b.2))

/-- The return step shared by the four factor strategies:
`pd.DataFrame(rows).sort_values(score_col, ...).head(20)`.  Building a
DataFrame from an empty candidate list yields a frame with no columns, so
the `sort_values` column lookup raises `KeyError`; otherwise the rows are
sorted by raw score — ascending for the value strategy, descending for the
others — and truncated to the top 20. -/
def strategyReturn (ascending : Bool) (rows : List (String × ℚ)) :
    Except String ResultSet :=
  if rows.isEmpty then .error "KeyError"
  else .ok ((if ascending then List.insertionSort scoreLe rows
             else List.insertionSort scoreGe rows).take 20)

/-- `QuantStockSelector.multi_factor_selection`: run the four factor
strategies over the fetched candidate rows — value first, then growth,
momentum, quality — and combine their result sets.  Each strategy ends in
`strategyReturn`, so a strategy whose candidate list is empty raises
`KeyError`, which propagates out of `multi_factor_selection`. -/
def multi_factor_selection (w : Factor → ℚ)
    (value_rows growth_rows momentum_rows quality_rows :
      List (String × ℚ)) :
    Except String (List (String × ℚ)) := do
  let value_df ← strategyReturn true value_rows
  let growth_df ← strategyReturn false growth_rows
  let momentum_df ← strategyReturn false momentum_rows
  let quality_df ← strategyReturn false quality_rows
  return combineResults w ⟨value_df, growth_df, momentum_df, quality_df⟩

end PickStock

end Cornucopia

namespace Cornucopia.CrossSignal

/-- C3: a series shorter than `max(windowLengths) + lookbackDays` (and a
fortiori shorter than `minWindow + lookbackDays`) yields no crossover
events. -/
theorem find_crossovers_short (ma_periods : List ℕ) (df : DfMa)
    (lookback_days : ℕ)
    (h : df.dates.length < maxPeriod ma_periods + lookback_days) :
    find_crossovers ma_periods df lookback_days = [] := by
  simp [find_crossovers, if_pos h]

/-- C3 witness: a 7-row frame with periods `[5, 10, 20, 30, 60]` and a
3-day lookback yields no events. -/
theorem find_crossovers_short_witness :
    find_crossovers [5, 10, 20, 30, 60]
      { dates := [0, 1, 2, 3, 4, 5, 6]
        closes := [1, 2, 3, 4, 5, 6, 7]
        cols := fun _ => [] } 3 = [] :=
  find_crossovers_short [5, 10, 20, 30, 60] _ 3 (by decide)

lemma windowSlice_length (w : ℕ) (closes : List ℚ) (i : ℕ)
    (hi : i < closes.length) :
    (windowSlice w closes i).length = min w (i + 1) := by
  simp only [windowSlice, List.length_drop, List.length_take]
  omega

lemma rollingMean_getD (w : ℕ) (closes : List ℚ) (i : ℕ)
    (hi : i < closes.length) (hw : 1 ≤ w) :
    (rollingMean w 1 closes).getD i none = some (windowMean w closes i) := by
  have hlen : i < (rollingMean w 1 closes).length := by
    simpa [rollingMean] using hi
  have hws : 1 ≤ (windowSlice w closes i).length := by
    rw [windowSlice_length w closes i hi]; omega
  rw [List.getD_eq_getElem _ _ hlen]
  simp [rollingMean, hws]

lemma maAt_calc (ps : List ℕ) (dates : List ℤ) (closes : List ℚ) (p j : ℕ)
    (hp : p ∈ ps) (hw : 1 ≤ p) (hj : j < closes.length) :
    maAt (calculate_moving_averages ps dates closes) p j
      = some (windowMean p closes j) := by
  simp only [maAt, calculate_moving_averages, if_pos hp]
  exact rollingMean_getD p closes j hj hw


lemma crossCheck_calc (ps : List ℕ) (dates : List ℤ) (closes : List ℚ)
    (slowP j : ℕ)
    (hfast : ps.headD 0 ∈ ps) (hwf : 1 ≤ ps.headD 0)
    (hs : slowP ∈ ps) (hws : 1 ≤ slowP)
    (hj0 : 1 ≤ j) (hj : j < closes.length) :
    crossCheck (calculate_moving_averages ps dates closes) (ps.headD 0) slowP j
      = if windowMean (ps.headD 0) closes j > windowMean slowP closes j ∧
           windowMean (ps.headD 0) closes (j - 1) ≤ windowMean slowP closes (j - 1)
        then some (expectedEvent ps dates closes slowP j)
        else none := by
  have h1 := maAt_calc ps dates closes (ps.headD 0) j hfast hwf hj
  have h2 := maAt_calc ps dates closes slowP j hs hws hj
  have h3 := maAt_calc ps dates closes (ps.headD 0) (j - 1) hfast hwf
    (by omega)
  have h4 := maAt_calc ps dates closes slowP (j - 1) hs hws (by omega)
  have hj0' : ¬ (j = 0) := by omega
  simp only [crossCheck, h1, h2, h3, h4, if_neg hj0']
  simp only [calculate_moving_averages, expectedEvent]

lemma mem_find_crossovers (ps : List ℕ) (df : DfMa) (lb : ℕ) (e : Event)
    (h : ¬ df.dates.length < maxPeriod ps + lb) :
    e ∈ find_crossovers ps df lb ↔
      ∃ i < min lb (df.dates.length - 1), ∃ slowP ∈ ps.drop 1,
        crossCheck df (ps.headD 0) slowP (df.dates.length - 1 - i) = some e := by
  simp [find_crossovers, if_neg h, List.mem_flatMap, List.mem_filterMap,
    List.mem_range, eq_comm]

lemma getD_inj_of_pairwise_ne (dates : List ℤ)
    (hnd : dates.Pairwise (· ≠ ·)) (j k : ℕ)
    (hj : j < dates.length) (hk : k < dates.length)
    (h : dates.getD j 0 = dates.getD k 0) : j = k := by
  rw [List.getD_eq_getElem _ _ hj, List.getD_eq_getElem _ _ hk] at h
  by_contra hne
  rcases Nat.lt_or_ge j k with hlt | hge
  · exact (List.pairwise_iff_getElem.mp hnd j k hj hk hlt) h
  · have hlt : k < j := by omega
    exact (List.pairwise_iff_getElem.mp hnd k j hk hj hlt) h.symm

/-- C1: on a moving-average-annotated series (distinct dates, positive
window lengths, enough history for the scan to run), the event for slow
window `slowP` at scan position `i` (absolute row `n - 1 - i`) is reported
iff the fast average is strictly above the slow average there and was at or
below it on the previous row. -/
theorem find_crossovers_iff (ps : List ℕ) (dates : List ℤ) (closes : List ℚ)
    (lb i slowP : ℕ)
    (hlen : dates.length = closes.length)
    (hnd : dates.Pairwise (· ≠ ·))
    (hpos : ∀ p ∈ ps, 1 ≤ p)
    (hguard : maxPeriod ps + lb ≤ closes.length)
    (hi : i < min lb (closes.length - 1))
    (hslow : slowP ∈ ps.drop 1) :
    expectedEvent ps dates closes slowP (closes.length - 1 - i) ∈
        find_crossovers ps (calculate_moving_averages ps dates closes) lb ↔
      (windowMean (ps.headD 0) closes (closes.length - 1 - i) >
         windowMean slowP closes (closes.length - 1 - i) ∧
       windowMean (ps.headD 0) closes (closes.length - 1 - i - 1) ≤
         windowMean slowP closes (closes.length - 1 - i - 1)) := by
  have hpsne : ps ≠ [] := by
    intro h
    rw [h] at hslow
    simp at hslow
  have hfast : ps.headD 0 ∈ ps := by
    cases ps with
    | nil => exact absurd rfl hpsne
    | cons a as => simp
  have hwf : 1 ≤ ps.headD 0 := hpos _ hfast
  have hsmem : slowP ∈ ps := List.mem_of_mem_drop hslow
  have hws : 1 ≤ slowP := hpos _ hsmem
  have hn2 : 2 ≤ closes.length := by omega
  have hj0 : 1 ≤ closes.length - 1 - i := by omega
  have hj : closes.length - 1 - i < closes.length := by omega
  have hdlen : (calculate_moving_averages ps dates closes).dates.length
      = closes.length := by
    simp [calculate_moving_averages, hlen]
  have hguard' : ¬ (calculate_moving_averages ps dates closes).dates.length
      < maxPeriod ps + lb := by omega
  rw [mem_find_crossovers ps _ lb _ hguard']
  rw [hdlen]
  constructor
  · rintro ⟨i', hi', slowP', hslowP', hcc⟩
    have hsm' : slowP' ∈ ps := List.mem_of_mem_drop hslowP'
    have hw' : 1 ≤ slowP' := hpos _ hsm'
    have hj0' : 1 ≤ closes.length - 1 - i' := by omega
    have hjlt' : closes.length - 1 - i' < closes.length := by omega
    rw [crossCheck_calc ps dates closes slowP' _ hfast hwf hsm' hw' hj0'
      hjlt'] at hcc
    by_cases hcond : windowMean (ps.headD 0) closes (closes.length - 1 - i') >
        windowMean slowP' closes (closes.length - 1 - i') ∧
        windowMean (ps.headD 0) closes (closes.length - 1 - i' - 1) ≤
        windowMean slowP' closes (closes.length - 1 - i' - 1)
    · rw [if_pos hcond, Option.some_inj] at hcc
      have hfields := hcc
      rw [expectedEvent, expectedEvent, Event.mk.injEq] at hfields
      obtain ⟨hdate, -, hsloweq, -, -, -, -⟩ := hfields
      have hjj : closes.length - 1 - i' = closes.length - 1 - i := by
        apply getD_inj_of_pairwise_ne dates hnd _ _ (by omega) (by omega)
        exact hdate
      rw [hjj, hsloweq] at hcond
      exact hcond
    · rw [if_neg hcond] at hcc
      exact absurd hcc (by simp)
  · intro hcond
    refine ⟨i, hi, slowP, hslow, ?_⟩
    rw [crossCheck_calc ps dates closes slowP _ hfast hwf hsmem hws hj0 hj]
    exact if_pos hcond

/-- C1 witness: with periods `[1, 2]`, dates `[0, 1, 2]`, closes `[1, 2, 3]`
and a one-day lookback, the crossing criterion characterises the reported
event at the last row. -/
theorem find_crossovers_iff_witness :
    expectedEvent [1, 2] [0, 1, 2] [1, 2, 3] 2 2 ∈
        find_crossovers [1, 2]
          (calculate_moving_averages [1, 2] [0, 1, 2] [1, 2, 3]) 1 ↔
      (windowMean 1 [1, 2, 3] 2 > windowMean 2 [1, 2, 3] 2 ∧
       windowMean 1 [1, 2, 3] 1 ≤ windowMean 2 [1, 2, 3] 1) :=
  find_crossovers_iff [1, 2] [0, 1, 2] [1, 2, 3] 1 0 2 rfl (by decide)
    (by decide) (by decide) (by decide) (by decide)

/-- C10: with `min_periods=1`, every configured moving-average column is
defined at every row of the frame, so the crossover scan's skip branches for
missing fast or slow values never fire at any scan position. -/
theorem moving_averages_total (ps : List ℕ) (dates : List ℤ)
    (closes : List ℚ) (lb : ℕ)
    (hlen : dates.length = closes.length)
    (hpos : ∀ p ∈ ps, 1 ≤ p) :
    (∀ p ∈ ps, ∀ i < closes.length,
      (maAt (calculate_moving_averages ps dates closes) p i).isSome) ∧
    (∀ i < min lb (dates.length - 1), ∀ slowP ∈ ps.drop 1,
      (maAt (calculate_moving_averages ps dates closes) (ps.headD 0)
        (dates.length - 1 - i)).isSome ∧
      (maAt (calculate_moving_averages ps dates closes) slowP
        (dates.length - 1 - i)).isSome ∧
      (maAt (calculate_moving_averages ps dates closes) (ps.headD 0)
        (dates.length - 1 - i - 1)).isSome ∧
      (maAt (calculate_moving_averages ps dates closes) slowP
        (dates.length - 1 - i - 1)).isSome) := by
  have hcell : ∀ p ∈ ps, ∀ i < closes.length,
      (maAt (calculate_moving_averages ps dates closes) p i).isSome := by
    intro p hp i hilt
    rw [maAt_calc ps dates closes p i hp (hpos p hp) hilt]
    rfl
  refine ⟨hcell, ?_⟩
  intro i hilt slowP hslow
  have hpsne : ps ≠ [] := by
    intro h
    rw [h] at hslow
    simp at hslow
  have hfast : ps.headD 0 ∈ ps := by
    cases ps with
    | nil => exact absurd rfl hpsne
    | cons a as => simp
  have hsm : slowP ∈ ps := List.mem_of_mem_drop hslow
  exact ⟨hcell _ hfast _ (by omega), hcell _ hsm _ (by omega),
    hcell _ hfast _ (by omega), hcell _ hsm _ (by omega)⟩

/-- C10 witness: instantiated on periods `[1, 2]` over a three-bar series. -/
theorem moving_averages_total_witness :
    (∀ p ∈ [1, 2], ∀ i < ([1, 2, 3] : List ℚ).length,
      (maAt (calculate_moving_averages [1, 2] [0, 1, 2] [1, 2, 3]) p
        i).isSome) ∧
    (∀ i < min 1 (([0, 1, 2] : List ℤ).length - 1), ∀ slowP ∈ [1, 2].drop 1,
      (maAt (calculate_moving_averages [1, 2] [0, 1, 2] [1, 2, 3])
        ([1, 2].headD 0) (([0, 1, 2] : List ℤ).length - 1 - i)).isSome ∧
      (maAt (calculate_moving_averages [1, 2] [0, 1, 2] [1, 2, 3]) slowP
        (([0, 1, 2] : List ℤ).length - 1 - i)).isSome ∧
      (maAt (calculate_moving_averages [1, 2] [0, 1, 2] [1, 2, 3])
        ([1, 2].headD 0) (([0, 1, 2] : List ℤ).length - 1 - i - 1)).isSome ∧
      (maAt (calculate_moving_averages [1, 2] [0, 1, 2] [1, 2, 3]) slowP
        (([0, 1, 2] : List ℤ).length - 1 - i - 1)).isSome) :=
  moving_averages_total [1, 2] [0, 1, 2] [1, 2, 3] 1 rfl (by decide)


lemma pyStrLtB_asymm : ∀ x y : List ℕ,
    pyStrLtB x y = true → pyStrLtB y x = false
  | _, [], h => by simp [pyStrLtB] at h
  | [], _ :: _, _ => by simp [pyStrLtB]
  | a :: as, b :: bs, h => by
    simp only [pyStrLtB] at h ⊢
    split_ifs at h ⊢ <;>
      first
        | rfl
        | omega
        | (simp at h)
        | exact pyStrLtB_asymm as bs h

lemma pyStrLtB_trans : ∀ x y z : List ℕ,
    pyStrLtB x y = true → pyStrLtB y z = true → pyStrLtB x z = true
  | _, _, [], _, h2 => by simp [pyStrLtB] at h2
  | _, [], _ :: _, h1, _ => by simp [pyStrLtB] at h1
  | [], _ :: _, _ :: _, _, _ => by simp [pyStrLtB]
  | a :: as, b :: bs, c :: cs, h1, h2 => by
    simp only [pyStrLtB] at h1 h2 ⊢
    split_ifs at h1 h2 ⊢ <;>
      first
        | rfl
        | omega
        | (simp at h1)
        | (simp at h2)
        | exact pyStrLtB_trans as bs cs h1 h2

lemma pyStrLtB_eq_of_not : ∀ x y : List ℕ,
    pyStrLtB x y = false → pyStrLtB y x = false → x = y
  | [], [], _, _ => rfl
  | [], _ :: _, h1, _ => by simp [pyStrLtB] at h1
  | _ :: _, [], _, h2 => by simp [pyStrLtB] at h2
  | a :: as, b :: bs, h1, h2 => by
    simp only [pyStrLtB] at h1 h2
    split_ifs at h1 h2 with h3 h4 <;> try omega
    have : a = b := by omega
    rw [this, pyStrLtB_eq_of_not as bs h1 h2]


instance : IsTotal Event resultBefore := by
  constructor
  intro a b
  rcases lt_trichotomy a.date b.date with h | h | h
  · exact Or.inr (Or.inl h)
  · by_cases hl : pyStrLtB a.signal_strength.label b.signal_strength.label
      = true
    · exact Or.inr (Or.inr ⟨h.symm, pyStrLtB_asymm _ _ hl⟩)
    · exact Or.inl (Or.inr ⟨h, Bool.eq_false_iff.mpr
        (fun hc => hl hc)⟩)
  · exact Or.inl (Or.inl h)

instance : IsTrans Event resultBefore := by
  constructor
  rintro a b c (hab | ⟨hab, hlab⟩) (hbc | ⟨hbc, hlbc⟩)
  · exact Or.inl (hbc.trans hab)
  · exact Or.inl (hbc ▸ hab)
  · exact Or.inl (hab ▸ hbc)
  · refine Or.inr ⟨hab.trans hbc, ?_⟩
    by_contra hac
    have hac' : pyStrLtB a.signal_strength.label c.signal_strength.label
        = true := by
      revert hac
      cases pyStrLtB a.signal_strength.label c.signal_strength.label <;> simp
    by_cases hba : pyStrLtB b.signal_strength.label a.signal_strength.label
      = true
    · have := pyStrLtB_trans _ _ _ hba hac'
      rw [this] at hlbc
      exact absurd hlbc (by simp)
    · have heq := pyStrLtB_eq_of_not _ _ hlab
        (Bool.eq_false_iff.mpr (fun hc => hba hc))
      rw [heq] at hac'
      rw [hac'] at hlbc
      exact absurd hlbc (by simp)

/-- C6 counterexample: two same-day events, one moderate (中等) and one weak
(弱), are output weak first by the code's string sort (弱 U+5F31 sorts above
中 U+4E2D), violating the claimed strong-moderate-weak tie-break order. -/
theorem screen_sort_counterexample :
    ¬ (sort_results
        [{ date := 0, fast_ma := 5, slow_ma := 10, fast_ma_value := 102,
           slow_ma_value := 100, close_price := 100,
           signal_strength := .moderate },
         { date := 0, fast_ma := 5, slow_ma := 20, fast_ma_value := 101,
           slow_ma_value := 100, close_price := 100,
           signal_strength := .weak }]).Pairwise
      (fun a b => b.date < a.date ∨
        (a.date = b.date ∧
          strengthRank b.signal_strength ≤ strengthRank a.signal_strength))
    := by decide

/-- C6 (amended): the final event list is sorted by event date descending
and, among equal dates, by the strength label string descending in Python's
lexicographic code-point order — which places strong (强) before weak (弱)
before moderate (中等). -/
theorem screen_sort_spec (evs : List Event) :
    (sort_results evs).Perm evs ∧
    (sort_results evs).Pairwise resultBefore ∧
    pyStrLtB Strength.moderate.label Strength.weak.label = true ∧
    pyStrLtB Strength.weak.label Strength.strong.label = true :=
  ⟨List.perm_insertionSort resultBefore evs,
   List.sorted_insertionSort resultBefore evs, by decide, by decide⟩

/-- C4: the strength label is strong iff the relative gap
`(fast - slow) / slow * 100` exceeds 2, moderate iff it exceeds 1 but not 2,
weak otherwise; a zero slow average is labelled weak. -/
theorem calculate_signal_strength_spec (fast_ma slow_ma : ℚ) :
    (slow_ma = 0 → calculate_signal_strength fast_ma slow_ma = .weak) ∧
    (slow_ma ≠ 0 →
      ((calculate_signal_strength fast_ma slow_ma = .strong ↔
          (fast_ma - slow_ma) / slow_ma * 100 > 2) ∧
       (calculate_signal_strength fast_ma slow_ma = .moderate ↔
          ((fast_ma - slow_ma) / slow_ma * 100 > 1 ∧
           ¬ (fast_ma - slow_ma) / slow_ma * 100 > 2)) ∧
       (calculate_signal_strength fast_ma slow_ma = .weak ↔
          ¬ (fast_ma - slow_ma) / slow_ma * 100 > 1))) := by
  constructor
  · intro h
    simp [calculate_signal_strength, h]
  · intro h
    simp only [calculate_signal_strength, if_neg h]
    split_ifs with h2 h1 <;>
      simp_all <;> linarith

/-- C4 witness: a 3% gap is strong, a 1.5% gap moderate, a 1% gap weak, and
a zero slow average weak. -/
theorem calculate_signal_strength_spec_witness :
    calculate_signal_strength 103 100 = .strong ∧
    calculate_signal_strength 203 200 = .moderate ∧
    calculate_signal_strength 101 100 = .weak ∧
    calculate_signal_strength 103 0 = .weak := by
  refine ⟨?_, ?_, ?_, ?_⟩
  · exact ((calculate_signal_strength_spec 103 100).2 (by norm_num)).1.mpr
      (by norm_num)
  · exact ((calculate_signal_strength_spec 203 200).2 (by norm_num)).2.1.mpr
      (by norm_num)
  · exact ((calculate_signal_strength_spec 101 100).2 (by norm_num)).2.2.mpr
      (by norm_num)
  · exact (calculate_signal_strength_spec 103 0).1 rfl

end Cornucopia.CrossSignal

namespace Cornucopia.Fetcher

lemma trySources_all_bad (cache : Cache) (now : ℤ) (symbol name : String) :
    ∀ rs : List AdapterResult, (∀ r ∈ rs, ¬ goodRes r) →
      trySources cache now symbol name rs = (none, cache, rs.length)
  | [], _ => rfl
  | .error u :: rest, h => by
    have hrest := trySources_all_bad cache now symbol name rest
      (fun x hx => h x (by simp [hx]))
    simp [trySources, skipSource, hrest]
  | .ok none :: rest, h => by
    have hrest := trySources_all_bad cache now symbol name rest
      (fun x hx => h x (by simp [hx]))
    simp [trySources, skipSource, hrest]
  | .ok (some df) :: rest, h => by
    have hr : ¬ goodRes (.ok (some df)) := h _ (by simp)
    have hrest := trySources_all_bad cache now symbol name rest
      (fun x hx => h x (by simp [hx]))
    rw [trySources, if_neg (by simpa [goodRes] using hr)]
    simp [skipSource, hrest]

lemma trySources_first_good (cache : Cache) (now : ℤ) (symbol name : String) :
    ∀ (rs : List AdapterResult) (k : ℕ) (df : StockDF),
      rs[k]? = some (.ok (some df)) →
      df.bars ≠ [] → 20 ≤ df.bars.length →
      (∀ j < k, ∀ r, rs[j]? = some r → ¬ goodRes r) →
      trySources cache now symbol name rs
        = (some (annotate df symbol name),
           putCache cache symbol ⟨annotate df symbol name, now⟩, k + 1)
  | [], k, df, hk, _, _, _ => by simp at hk
  | r :: rest, 0, df, hk, hne, hlen, _ => by
    simp at hk
    subst hk
    rw [trySources, if_pos ⟨hne, hlen⟩]
  | r :: rest, k + 1, df, hk, hne, hlen, hpre => by
    have hr : ¬ goodRes r := hpre 0 (by omega) r (by simp)
    have hrest := trySources_first_good cache now symbol name rest k df
      (by simpa using hk) hne hlen
      (fun j hj r' hr' => hpre (j + 1) (by omega) r' (by simpa using hr'))
    cases r with
    | error u => simp [trySources, skipSource, hrest]
    | ok o =>
      cases o with
      | none => simp [trySources, skipSource, hrest]
      | some df' =>
        rw [trySources, if_neg (by simpa [goodRes] using hr)]
        simp [skipSource, hrest]

lemma trySources_success (cache : Cache) (now : ℤ) (symbol name : String) :
    ∀ (rs : List AdapterResult) (s : StockDF) (c' : Cache) (k : ℕ),
      trySources cache now symbol name rs = (some s, c', k) →
      c' = putCache cache symbol ⟨s, now⟩ ∧ s.bars ≠ [] ∧ 20 ≤ s.bars.length
  | [], s, c', k, h => by simp [trySources] at h
  | .error u :: rest, s, c', k, h => by
    rw [trySources] at h
    rcases hout : trySources cache now symbol name rest with ⟨o, c0, k0⟩
    rw [hout] at h
    simp only [skipSource, Prod.mk.injEq] at h
    obtain ⟨ho, hc, hk⟩ := h
    exact trySources_success cache now symbol name rest s c' k0
      (by rw [hout, ho, hc])
  | .ok none :: rest, s, c', k, h => by
    rw [trySources] at h
    rcases hout : trySources cache now symbol name rest with ⟨o, c0, k0⟩
    rw [hout] at h
    simp only [skipSource, Prod.mk.injEq] at h
    obtain ⟨ho, hc, hk⟩ := h
    exact trySources_success cache now symbol name rest s c' k0
      (by rw [hout, ho, hc])
  | .ok (some df) :: rest, s, c', k, h => by
    rw [trySources] at h
    by_cases hg : df.bars ≠ [] ∧ 20 ≤ df.bars.length
    · rw [if_pos hg] at h
      simp only [Prod.mk.injEq, Option.some_inj] at h
      obtain ⟨ho, hc, hk⟩ := h
      subst ho
      refine ⟨hc.symm, ?_, ?_⟩
      · simpa [annotate] using hg.1
      · simpa [annotate] using hg.2
    · rw [if_neg hg] at h
      rcases hout : trySources cache now symbol name rest with ⟨o, c0, k0⟩
      rw [hout] at h
      simp only [skipSource, Prod.mk.injEq] at h
      obtain ⟨ho, hc, hk⟩ := h
      exact trySources_success cache now symbol name rest s c' k0
        (by rw [hout, ho, hc])

lemma get_stock_data_of_miss (cache : Cache) (now : ℤ) (symbol name : String)
    (akshareRes yfinanceRes eastmoneyRes : AdapterResult)
    (hmiss : ¬ cacheValid cache symbol now) :
    get_stock_data cache now symbol name akshareRes yfinanceRes eastmoneyRes
      = trySources cache now symbol name
          (data_sources akshareRes yfinanceRes eastmoneyRes) := by
  unfold get_stock_data
  split
  · rename_i e h
    rw [if_neg]
    intro hcond
    apply hmiss
    simp only [cacheValid, h]
    exact hcond
  · rfl

/-- C2: on a cache miss, `get_stock_data` tries the sources in the fixed
order akshare, yfinance, eastmoney; it returns the first source result that
is non-empty with at least 20 bars (annotated and cached), invoking exactly
the sources up to and including that one; any per-source failure is
swallowed, and if no source yields a usable frame the result is `none`
(no exception reaches the caller, the model is a total function). -/
theorem get_stock_data_fallback (cache : Cache) (now : ℤ)
    (symbol name : String)
    (akshareRes yfinanceRes eastmoneyRes : AdapterResult)
    (hmiss : ¬ cacheValid cache symbol now) :
    (∀ k (df : StockDF),
      (data_sources akshareRes yfinanceRes eastmoneyRes)[k]?
          = some (.ok (some df)) →
      df.bars ≠ [] → 20 ≤ df.bars.length →
      (∀ j < k, ∀ r,
        (data_sources akshareRes yfinanceRes eastmoneyRes)[j]? = some r →
          ¬ goodRes r) →
      get_stock_data cache now symbol name akshareRes yfinanceRes eastmoneyRes
        = (some (annotate df symbol name),
           putCache cache symbol ⟨annotate df symbol name, now⟩, k + 1)) ∧
    ((∀ r ∈ data_sources akshareRes yfinanceRes eastmoneyRes, ¬ goodRes r) →
      get_stock_data cache now symbol name akshareRes yfinanceRes eastmoneyRes
        = (none, cache, 3)) := by
  constructor
  · intro k df hk hne hlen hpre
    rw [get_stock_data_of_miss cache now symbol name _ _ _ hmiss]
    exact trySources_first_good cache now symbol name _ k df hk hne hlen hpre
  · intro hall
    rw [get_stock_data_of_miss cache now symbol name _ _ _ hmiss]
    exact trySources_all_bad cache now symbol name _ hall

/-- C2 witness: akshare raises, yfinance returns a 20-bar frame — the
fetcher returns yfinance's frame after invoking exactly two sources. -/
theorem get_stock_data_fallback_witness :
    get_stock_data [] 0 "600519" "X" (.error ())
        (.ok (some ⟨List.replicate 20 1, none, none⟩)) (.ok none)
      = (some (annotate ⟨List.replicate 20 1, none, none⟩ "600519" "X"),
         putCache [] "600519"
           ⟨annotate ⟨List.replicate 20 1, none, none⟩ "600519" "X", 0⟩,
         2) :=
  (get_stock_data_fallback [] 0 "600519" "X" (.error ())
      (.ok (some ⟨List.replicate 20 1, none, none⟩)) (.ok none)
      (by simp [cacheValid, lookupCache])).1
    1 ⟨List.replicate 20 1, none, none⟩ rfl (by simp) (by simp)
    (by
      intro j hj r hr
      interval_cases j
      simp only [data_sources] at hr
      simp at hr
      subst hr
      simp [goodRes])

lemma lookupCache_putCache (c : Cache) (symbol : String) (e : CacheEntry) :
    lookupCache (putCache c symbol e) symbol = some e := by
  simp [lookupCache, putCache, List.find?]

lemma get_stock_data_success_cache (cache : Cache) (now : ℤ)
    (symbol name : String) (a y em : AdapterResult) (s : StockDF)
    (c₁ : Cache) (k : ℕ)
    (h : get_stock_data cache now symbol name a y em = (some s, c₁, k)) :
    ∃ en, lookupCache c₁ symbol = some en ∧ en.series = s ∧
      s.bars ≠ [] ∧ 20 ≤ s.bars.length := by
  unfold get_stock_data at h
  split at h
  · rename_i e hl
    by_cases hv : now - e.writtenAt < seriesTTL ∧ e.series.bars ≠ [] ∧
        20 ≤ e.series.bars.length
    · rw [if_pos hv] at h
      simp only [Prod.mk.injEq, Option.some_inj] at h
      obtain ⟨hs, hc, -⟩ := h
      exact ⟨e, by rw [← hc]; exact hl, hs, hs ▸ hv.2.1, hs ▸ hv.2.2⟩
    · rw [if_neg hv] at h
      obtain ⟨hc, hne, hlen⟩ :=
        trySources_success cache now symbol name _ s c₁ k h
      exact ⟨⟨s, now⟩, by rw [hc]; exact lookupCache_putCache _ _ _, rfl,
        hne, hlen⟩
  · rename_i hl
    obtain ⟨hc, hne, hlen⟩ :=
      trySources_success cache now symbol name _ s c₁ k h
    exact ⟨⟨s, now⟩, by rw [hc]; exact lookupCache_putCache _ _ _, rfl,
      hne, hlen⟩

/-- C8: if `get_stock_data` once returns a series for a symbol, then a
second call for that symbol while the resulting cache entry is within the
6-hour TTL invokes no source (regardless of what the sources would return)
and returns the identical series with the cache unchanged. -/
theorem get_stock_data_idempotent (cache : Cache) (now₁ now₂ : ℤ)
    (symbol name : String) (a₁ y₁ e₁ a₂ y₂ e₂ : AdapterResult)
    (s : StockDF) (c₁ : Cache) (k : ℕ)
    (hfirst : get_stock_data cache now₁ symbol name a₁ y₁ e₁
      = (some s, c₁, k))
    (hfresh : ∀ en, lookupCache c₁ symbol = some en →
      now₂ - en.writtenAt < seriesTTL) :
    get_stock_data c₁ now₂ symbol name a₂ y₂ e₂ = (some s, c₁, 0) := by
  obtain ⟨en, hen, hser, hne, hlen⟩ :=
    get_stock_data_success_cache cache now₁ symbol name a₁ y₁ e₁ s c₁ k
      hfirst
  unfold get_stock_data
  simp only [hen]
  rw [if_pos ⟨hfresh en hen, hser ▸ hne, hser ▸ hlen⟩, hser]

/-- C8 witness: a call that succeeds from a valid cache entry, repeated
100 seconds later with every source raising, is served from the cache. -/
theorem get_stock_data_idempotent_witness :
    get_stock_data [("600519", ⟨⟨List.replicate 20 1, none, none⟩, 0⟩)] 100
        "600519" "X" (.error ()) (.error ()) (.error ())
      = (some ⟨List.replicate 20 1, none, none⟩,
         [("600519", ⟨⟨List.replicate 20 1, none, none⟩, 0⟩)], 0) :=
  get_stock_data_idempotent
    [("600519", ⟨⟨List.replicate 20 1, none, none⟩, 0⟩)] 0 100 "600519" "X"
    (.error ()) (.error ()) (.error ()) (.error ()) (.error ()) (.error ())
    ⟨List.replicate 20 1, none, none⟩
    [("600519", ⟨⟨List.replicate 20 1, none, none⟩, 0⟩)] 0
    (by decide)
    (by
      intro en hen
      simp [lookupCache, List.find?] at hen
      rw [← hen]
      decide)

/-- C7 (code bug): on a cache miss, when the akshare universe call raises
or returns an empty frame, `get_all_a_stocks` evaluates `.empty` on the
plain Python list `[]` and raises `AttributeError`, never reaching the
local or embedded fallback lists. -/
theorem get_all_a_stocks_raises :
    get_all_a_stocks_onMiss (.error ()) = .error "AttributeError" ∧
    get_all_a_stocks_onMiss (.ok []) = .error "AttributeError" :=
  ⟨rfl, rfl⟩

end Cornucopia.Fetcher

namespace Cornucopia.PickStock

lemma foldl_min_le_init (l : List ℚ) (b : ℚ) : l.foldl min b ≤ b := by
  induction l generalizing b with
  | nil => exact le_refl b
  | cons x xs ih =>
    calc (x :: xs).foldl min b = xs.foldl min (min b x) := rfl
    _ ≤ min b x := ih (min b x)
    _ ≤ b := min_le_left b x

lemma foldl_min_le_mem (l : List ℚ) (b x : ℚ) (hx : x ∈ l) :
    l.foldl min b ≤ x := by
  induction l generalizing b with
  | nil => simp at hx
  | cons a as ih =>
    rcases List.mem_cons.mp hx with h | h
    · subst h
      calc (x :: as).foldl min b = as.foldl min (min b x) := rfl
      _ ≤ min b x := foldl_min_le_init as (min b x)
      _ ≤ x := min_le_right b x
    · exact ih (min b a) h

lemma le_foldl_max_init (l : List ℚ) (b : ℚ) : b ≤ l.foldl max b := by
  induction l generalizing b with
  | nil => exact le_refl b
  | cons x xs ih =>
    calc b ≤ max b x := le_max_left b x
    _ ≤ xs.foldl max (max b x) := ih (max b x)
    _ = (x :: xs).foldl max b := rfl

lemma mem_le_foldl_max (l : List ℚ) (b x : ℚ) (hx : x ∈ l) :
    x ≤ l.foldl max b := by
  induction l generalizing b with
  | nil => simp at hx
  | cons a as ih =>
    rcases List.mem_cons.mp hx with h | h
    · subst h
      calc x ≤ max b x := le_max_right b x
      _ ≤ as.foldl max (max b x) := le_foldl_max_init as (max b x)
      _ = (x :: as).foldl max b := rfl
    · exact ih (max b a) h

lemma colMin_le (l : List ℚ) (x : ℚ) (hx : x ∈ l) : colMin l ≤ x := by
  cases l with
  | nil => simp at hx
  | cons a as =>
    rcases List.mem_cons.mp hx with h | h
    · subst h
      exact foldl_min_le_init as x
    · exact foldl_min_le_mem as a x h

lemma le_colMax (l : List ℚ) (x : ℚ) (hx : x ∈ l) : x ≤ colMax l := by
  cases l with
  | nil => simp at hx
  | cons a as =>
    rcases List.mem_cons.mp hx with h | h
    · subst h
      exact le_foldl_max_init as x
    · exact mem_le_foldl_max as a x h

lemma normalizeScore_bounds (rs : ResultSet) (x : ℚ)
    (hx : x ∈ rs.map Prod.snd) :
    0 ≤ normalizeScore rs x ∧ normalizeScore rs x ≤ 1 := by
  have h1 := colMin_le _ x hx
  have h2 := le_colMax _ x hx
  have heps : (0 : ℚ) < normEps := by norm_num [normEps]
  have hd : 0 < colMax (rs.map Prod.snd) - colMin (rs.map Prod.snd)
      + normEps := by linarith
  constructor
  · exact div_nonneg (by linarith) (le_of_lt hd)
  · rw [normalizeScore, div_le_one hd]
    linarith

lemma factorScore_nonneg (rs : ResultSet) (s : String) :
    0 ≤ factorScore rs s := by
  unfold factorScore
  split
  · rename_i p hp
    have hmem : p ∈ rs := by
      have := List.mem_of_find?_eq_some hp
      rwa [List.mem_reverse] at this
    exact (normalizeScore_bounds rs p.2 (List.mem_map_of_mem Prod.snd hmem)).1
  · exact le_refl 0

lemma factorScore_bounds_of_mem (rs : ResultSet) (s : String)
    (hs : ∃ p ∈ rs, p.1 = s) :
    0 ≤ factorScore rs s ∧ factorScore rs s ≤ 1 := by
  unfold factorScore
  split
  · rename_i p hp
    have hmem : p ∈ rs := by
      have := List.mem_of_find?_eq_some hp
      rwa [List.mem_reverse] at this
    exact normalizeScore_bounds rs p.2 (List.mem_map_of_mem Prod.snd hmem)
  · rename_i hnone
    obtain ⟨p, hp, hps⟩ := hs
    rw [List.find?_eq_none] at hnone
    exact absurd (by simp [hps]) (hnone p (List.mem_reverse.mpr hp))

lemma factorScore_absent (rs : ResultSet) (s : String)
    (habs : ∀ p ∈ rs, p.1 ≠ s) : factorScore rs s = 0 := by
  unfold factorScore
  split
  · rename_i p hp
    have hmem : p ∈ rs := by
      have := List.mem_of_find?_eq_some hp
      rwa [List.mem_reverse] at this
    have := List.find?_some hp
    simp only [beq_iff_eq] at this
    exact absurd this (habs p hmem)
  · rfl

lemma mem_dedupAux (s : String) :
    ∀ (seen l : List String), s ∈ dedupAux seen l → s ∈ l := by
  intro seen l
  induction l generalizing seen with
  | nil => intro h; simp [dedupAux] at h
  | cons x xs ih =>
    intro h
    rw [dedupAux] at h
    split at h
    · exact List.mem_cons_of_mem x (ih seen h)
    · rcases List.mem_cons.mp h with h' | h'
      · exact h' ▸ List.mem_cons_self x xs
      · exact List.mem_cons_of_mem x (ih (x :: seen) h')

/-- The combination loop in isolation: every symbol present in a
strategy's result set gets a normalized score in `[0, 1]` for that factor
(min-max within that result set, with the `1e-10` denominator guard), a
symbol absent from a result set gets 0 for that factor, each output row's
combined score is the weighted sum of the per-factor normalized scores,
and the output is sorted by descending combined score and truncated to the
top 30. -/
theorem combineResults_spec (d : Inputs) (w : Factor → ℚ) :
    (∀ f : Factor, ∀ p ∈ d.rs f,
      0 ≤ factorScore (d.rs f) p.1 ∧ factorScore (d.rs f) p.1 ≤ 1) ∧
    (∀ (f : Factor) (s : String), (∀ p ∈ d.rs f, p.1 ≠ s) →
      factorScore (d.rs f) s = 0) ∧
    (∀ s : String, factorScore ([] : ResultSet) s = 0) ∧
    (∀ q ∈ combineResults w d,
      q.2 = (Factor.all.map (fun f => w f * factorScore (d.rs f) q.1)).sum ∧
      ∃ f : Factor, ∃ p ∈ d.rs f, p.1 = q.1) ∧
    (combineResults w d).Pairwise scoreGe ∧
    (combineResults w d).length ≤ 30 := by
  refine ⟨?_, ?_, ?_, ?_, ?_, ?_⟩
  · intro f p hp
    exact factorScore_bounds_of_mem (d.rs f) p.1 ⟨p, hp, rfl⟩
  · intro f s habs
    exact factorScore_absent (d.rs f) s habs
  · intro s
    exact factorScore_absent [] s (by simp)
  · intro q hq
    have hq1 : q ∈ List.insertionSort scoreGe
        ((allSymbols d).map (fun s => (s, total_score w d s))) :=
      List.mem_of_mem_take hq
    have hq2 : q ∈ (allSymbols d).map (fun s => (s, total_score w d s)) :=
      (List.perm_insertionSort scoreGe _).mem_iff.mp hq1
    obtain ⟨s, hs, hqs⟩ := List.mem_map.mp hq2
    constructor
    · rw [← hqs]
      simp only [total_score, Factor.all, List.map_cons, List.map_nil,
        List.sum_cons, List.sum_nil]
      ring
    · have hsl : s ∈ Factor.all.flatMap (fun f => (d.rs f).map Prod.fst) :=
        mem_dedupAux s [] _ hs
      obtain ⟨f, -, hsf⟩ := List.mem_flatMap.mp hsl
      obtain ⟨p, hp, hps⟩ := List.mem_map.mp hsf
      exact ⟨f, p, hp, by rw [hps, ← hqs]⟩
  · exact (List.sorted_insertionSort scoreGe _).sublist
      (List.take_sublist 30 _)
  · exact List.length_take_le 30 _

/-- C5 (code bug): a factor strategy whose candidate list is empty makes
`multi_factor_selection` raise `KeyError` — `pd.DataFrame([])` has no
columns, so the strategy's own `sort_values('…_score')` raises inside
`multi_factor_selection`'s call — instead of contributing 0 to every
symbol without error; the `if not df.empty` guard of the combination loop
is unreachable for that case.  When every strategy has candidates the
selector returns the combination without error. -/
theorem multi_factor_selection_empty_raises :
    multi_factor_selection (fun _ => (1 : ℚ)/4) [] [("B", 1)] [("B", 1)]
        [("B", 1)] = .error "KeyError" ∧
    multi_factor_selection (fun _ => (1 : ℚ)/4) [("A", 1)] [("A", 1)]
        [("A", 1)] [] = .error "KeyError" ∧
    multi_factor_selection (fun _ => (1 : ℚ)/4) [("A", 1)] [("A", 1)]
        [("A", 1)] [("A", 1)]
      = .ok (combineResults (fun _ => (1 : ℚ)/4)
          ⟨[("A", 1)], [("A", 1)], [("A", 1)], [("A", 1)]⟩) :=
  ⟨rfl, rfl, rfl⟩

/-- C9: raising one factor's weight, others fixed, never lowers the
combined score of the symbol ranked top by that factor relative to a symbol
whose normalized score is zero on every factor. -/
theorem multi_factor_monotone (d : Inputs) (w w' : Factor → ℚ)
    (f : Factor) (top zero : String)
    (hother : ∀ g : Factor, g ≠ f → w' g = w g)
    (hinc : w f ≤ w' f)
    (htop : ∀ p ∈ d.rs f, factorScore (d.rs f) p.1 ≤ factorScore (d.rs f) top)
    (hzero : ∀ g : Factor, factorScore (d.rs g) zero = 0) :
    total_score w d top - total_score w d zero ≤
      total_score w' d top - total_score w' d zero := by
  have hz : ∀ u : Factor → ℚ, total_score u d zero = 0 := by
    intro u
    simp [total_score, Factor.all, hzero]
  rw [hz w, hz w']
  have hnn : 0 ≤ factorScore (d.rs f) top := factorScore_nonneg _ _
  have hkey : factorScore (d.rs f) top * w f ≤ factorScore (d.rs f) top
      * w' f := mul_le_mul_of_nonneg_left hinc hnn
  cases f with
  | value =>
    have h1 := hother .growth (by simp)
    have h2 := hother .momentum (by simp)
    have h3 := hother .quality (by simp)
    simp only [total_score, Factor.all, List.map_cons, List.map_nil,
      List.sum_cons, List.sum_nil, Inputs.rs] at hkey ⊢
    rw [h1, h2, h3]
    linarith
  | growth =>
    have h1 := hother .value (by simp)
    have h2 := hother .momentum (by simp)
    have h3 := hother .quality (by simp)
    simp only [total_score, Factor.all, List.map_cons, List.map_nil,
      List.sum_cons, List.sum_nil, Inputs.rs] at hkey ⊢
    rw [h1, h2, h3]
    linarith
  | momentum =>
    have h1 := hother .value (by simp)
    have h2 := hother .growth (by simp)
    have h3 := hother .quality (by simp)
    simp only [total_score, Factor.all, List.map_cons, List.map_nil,
      List.sum_cons, List.sum_nil, Inputs.rs] at hkey ⊢
    rw [h1, h2, h3]
    linarith
  | quality =>
    have h1 := hother .value (by simp)
    have h2 := hother .growth (by simp)
    have h3 := hother .momentum (by simp)
    simp only [total_score, Factor.all, List.map_cons, List.map_nil,
      List.sum_cons, List.sum_nil, Inputs.rs] at hkey ⊢
    rw [h1, h2, h3]
    linarith

/-- C9 witness: one value-strategy row, the value weight raised from 1/4 to
1/2 with the other weights fixed. -/
theorem multi_factor_monotone_witness :
    total_score (fun _ => 1/4) ⟨[("A", 1)], [], [], []⟩ "A" -
        total_score (fun _ => 1/4) ⟨[("A", 1)], [], [], []⟩ "Z" ≤
      total_score
          (fun g => match g with | .value => 1/2 | _ => 1/4)
          ⟨[("A", 1)], [], [], []⟩ "A" -
        total_score
          (fun g => match g with | .value => 1/2 | _ => 1/4)
          ⟨[("A", 1)], [], [], []⟩ "Z" :=
  multi_factor_monotone ⟨[("A", 1)], [], [], []⟩ (fun _ => 1/4)
    (fun g => match g with | .value => 1/2 | _ => 1/4) .value "A" "Z"
    (by intro g hg; cases g
        · exact absurd rfl hg
        · rfl
        · rfl
        · rfl)
    (by norm_num)
    (by intro p hp
        simp only [Inputs.rs, List.mem_singleton] at hp
        subst hp
        exact le_refl _)
    (by intro g; cases g <;> decide)

end Cornucopia.PickStock
